import Mathlib

/-!
Verification development for the `base-ts-baileys-mysql` repository.

The development shallowly embeds the two source files:
* `src/MysqlAdapter.ts` — a MySQL-backed history store with schema bootstrap
  (`init`/`checkTableExists`/`createTable`), reads (`getPrevByNumber`), writes
  (`save`), and pool health monitoring (`checkConnection`/`recreatePool`);
* the application file — conversational flows (`registerFlow` etc.) and HTTP
  handlers, of which the `/v1/blacklist` handler is embedded here.

External collaborators (the ECMAScript JSON serializer, the mysql2 pool
contract, the builderbot flow engine and blacklist set) are modelled from the
specification of their interfaces, as noted in the doc comments below.
-/

namespace BB

/-! ## Decimal digits (kernel-computable replacement for `Nat.digits 10`) -/

/-- Little-endian base-10 digits of `n`, with explicit fuel (`fuel = n` is
always enough since `n / 10 < n` for `n > 0`). -/
def natDigitsAux : Nat → Nat → List Nat
  | 0, _ => []
  | fuel + 1, n => if n = 0 then [] else n % 10 :: natDigitsAux fuel (n / 10)

/-- Little-endian base-10 digits of `n` (empty for `n = 0`). -/
def natDigits (n : Nat) : List Nat := natDigitsAux n n

/-- Value of a little-endian base-10 digit list. -/
def unDigits : List Nat → Nat
  | [] => 0
  | d :: ds => d + 10 * unDigits ds

/-! ## JSON values

`save` stores `JSON.stringify(ctx.options)` in the `options` column and
`getPrevByNumber` applies `JSON.parse` to it on read.  Both functions are
ECMAScript built-ins, external to the repository; they are modelled here.
Numbers are modelled as integers (the repository never manipulates the stored
blob, so the model fixes the JSON-serializable value universe it quantifies
over). -/

mutual
/-- A JSON-serializable value (numbers restricted to integers). -/
inductive Json where
  | null : Json
  | jbool (b : Bool) : Json
  | jnum (n : Int) : Json
  | jstr (s : String) : Json
  | jarr (items : JsonArr) : Json
  | jobj (fields : JsonObj) : Json
deriving Repr, DecidableEq

/-- A list of JSON values (array elements). -/
inductive JsonArr where
  | nil : JsonArr
  | cons (v : Json) (rest : JsonArr) : JsonArr
deriving Repr, DecidableEq

/-- An ordered list of JSON object fields. -/
inductive JsonObj where
  | nil : JsonObj
  | cons (k : String) (v : Json) (rest : JsonObj) : JsonObj
deriving Repr, DecidableEq
end

/-- The character for a single decimal digit. -/
def digChar (d : Nat) : Char := Char.ofNat (48 + d)

/-- Lower-case hexadecimal digit character. -/
def hexDig (n : Nat) : Char := if n < 10 then Char.ofNat (48 + n) else Char.ofNat (87 + n)

/-- Modelled from the spec: `JSON.stringify` escaping of one string character
(ECMAScript `QuoteJSONString`): quote and backslash get a backslash escape,
the common control characters get their two-character escapes, the remaining
control characters get a `\u00XX` escape, and all other characters are
emitted verbatim. -/
def escChar (c : Char) : List Char :=
  if c = '"' then ['\\', '"']
  else if c = '\\' then ['\\', '\\']
  else if c = '\x08' then ['\\', 'b']
  else if c = '\x09' then ['\\', 't']
  else if c = '\x0a' then ['\\', 'n']
  else if c = '\x0c' then ['\\', 'f']
  else if c = '\x0d' then ['\\', 'r']
  else if c.toNat < 32 then ['\\', 'u', '0', '0', hexDig (c.toNat / 16), hexDig (c.toNat % 16)]
  else [c]

/-- `JSON.stringify` escaping of a whole string body. -/
def escStr (s : List Char) : List Char := (s.map escChar).flatten

/-- Decimal digit characters of `n`, most significant first (empty for 0). -/
def natChars (n : Nat) : List Char := (natDigits n).reverse.map digChar

/-- Decimal rendering of a natural number (`"0"` for 0). -/
def natCharsFix (n : Nat) : List Char := if n = 0 then ['0'] else natChars n

/-- Decimal rendering of an integer, as emitted by `JSON.stringify`. -/
def intChars (i : Int) : List Char :=
  if i < 0 then '-' :: natCharsFix i.natAbs else natCharsFix i.natAbs

mutual
/-- Modelled from the spec: the character stream emitted by `JSON.stringify`
for a value (no whitespace; object fields in insertion order). -/
def jesChars : Json → List Char
  | .null => ['n', 'u', 'l', 'l']
  | .jbool true => ['t', 'r', 'u', 'e']
  | .jbool false => ['f', 'a', 'l', 's', 'e']
  | .jnum n => intChars n
  | .jstr s => '"' :: (escStr s.data ++ ['"'])
  | .jarr items => '[' :: (arrChars items ++ [']'])
  | .jobj fields => '\x7b' :: (objChars fields ++ ['\x7d'])

/-- Comma-separated renderings of array elements. -/
def arrChars : JsonArr → List Char
  | .nil => []
  | .cons v .nil => jesChars v
  | .cons v (.cons w rest) => jesChars v ++ ',' :: arrChars (.cons w rest)

/-- Comma-separated renderings of object fields (`"key":value`). -/
def objChars : JsonObj → List Char
  | .nil => []
  | .cons k v .nil => '"' :: (escStr k.data ++ ('"' :: ':' :: jesChars v))
  | .cons k v (.cons k2 v2 rest) =>
    ('"' :: (escStr k.data ++ ('"' :: ':' :: jesChars v))) ++ ',' :: objChars (.cons k2 v2 rest)
end

/-- Modelled from the spec: `JSON.stringify` on a JSON-serializable value. -/
def jstringify (v : Json) : String := String.mk (jesChars v)

/-! ### The reader side: a model of `JSON.parse` -/

/-- Is `c` a decimal digit character? -/
def isDigitCh (c : Char) : Bool := decide (48 ≤ c.toNat) && decide (c.toNat ≤ 57)

/-- Numeric value of a decimal digit character. -/
def digValCh (c : Char) : Nat := c.toNat - 48

/-- Parse a maximal run of decimal digits. -/
def parseNatChars (l : List Char) : Option (Nat × List Char) :=
  let ds := l.takeWhile isDigitCh
  if ds.isEmpty then none
  else some (ds.foldl (fun a c => a * 10 + digValCh c) 0, l.dropWhile isDigitCh)

/-- Value of one hexadecimal digit character. -/
def hexValCh (c : Char) : Option Nat :=
  if 48 ≤ c.toNat && c.toNat ≤ 57 then some (c.toNat - 48)
  else if 97 ≤ c.toNat && c.toNat ≤ 102 then some (c.toNat - 87)
  else if 65 ≤ c.toNat && c.toNat ≤ 70 then some (c.toNat - 55)
  else none

/-- The character denoted by a single-character JSON string escape. -/
def unescCh (c : Char) : Option Char :=
  if c = '"' then some '"'
  else if c = '\\' then some '\\'
  else if c = '/' then some '/'
  else if c = 'b' then some '\x08'
  else if c = 'f' then some '\x0c'
  else if c = 'n' then some '\x0a'
  else if c = 'r' then some '\x0d'
  else if c = 't' then some '\x09'
  else none

/-- Parse the body of a JSON string (after the opening quote), up to and
including the closing quote; returns the decoded characters and the rest. -/
def parseStrBody : List Char → Option (List Char × List Char)
  | [] => none
  | c :: rest =>
    if c = '"' then some ([], rest)
    else if c = '\\' then
      match rest with
      | [] => none
      | e :: rest2 =>
        if e = 'u' then
          match rest2 with
          | h1 :: h2 :: h3 :: h4 :: rest3 =>
            match hexValCh h1, hexValCh h2, hexValCh h3, hexValCh h4 with
            | some a, some b, some c3, some d =>
              match parseStrBody rest3 with
              | some (s, r) => some (Char.ofNat (((a * 16 + b) * 16 + c3) * 16 + d) :: s, r)
              | none => none
            | _, _, _, _ => none
          | _ => none
        else
          match unescCh e with
          | some u =>
            match parseStrBody rest2 with
            | some (s, r) => some (u :: s, r)
            | none => none
          | none => none
    else
      match parseStrBody rest with
      | some (s, r) => some (c :: s, r)
      | none => none

mutual
/-- Modelled from the spec: recursive-descent `JSON.parse` for the texts
produced by `jesChars` (no surrounding whitespace), with explicit fuel. -/
def parseVal : Nat → List Char → Option (Json × List Char)
  | 0, _ => none
  | _ + 1, [] => none
  | fuel + 1, c :: rest =>
    if c = 'n' then
      match rest with
      | 'u' :: 'l' :: 'l' :: r => some (Json.null, r)
      | _ => none
    else if c = 't' then
      match rest with
      | 'r' :: 'u' :: 'e' :: r => some (Json.jbool true, r)
      | _ => none
    else if c = 'f' then
      match rest with
      | 'a' :: 'l' :: 's' :: 'e' :: r => some (Json.jbool false, r)
      | _ => none
    else if c = '"' then
      match parseStrBody rest with
      | some (s, r) => some (Json.jstr (String.mk s), r)
      | none => none
    else if c = '-' then
      match parseNatChars rest with
      | some (n, r) => some (Json.jnum (-(n : Int)), r)
      | none => none
    else if isDigitCh c then
      match parseNatChars (c :: rest) with
      | some (n, r) => some (Json.jnum (n : Int), r)
      | none => none
    else if c = '[' then
      if rest.head? = some ']' then some (Json.jarr JsonArr.nil, rest.tail)
      else
        match parseItems fuel rest with
        | some (items, r) => some (Json.jarr items, r)
        | none => none
    else if c = '\x7b' then
      if rest.head? = some '\x7d' then some (Json.jobj JsonObj.nil, rest.tail)
      else
        match parseFields fuel rest with
        | some (fs, r) => some (Json.jobj fs, r)
        | none => none
    else none

/-- Parse a nonempty comma-separated element list up to the closing bracket. -/
def parseItems : Nat → List Char → Option (JsonArr × List Char)
  | 0, _ => none
  | fuel + 1, l =>
    match parseVal fuel l with
    | some (v, r) =>
      match r with
      | ',' :: r2 =>
        match parseItems fuel r2 with
        | some (items, r3) => some (JsonArr.cons v items, r3)
        | none => none
      | ']' :: r2 => some (JsonArr.cons v JsonArr.nil, r2)
      | _ => none
    | none => none

/-- Parse a nonempty comma-separated field list up to the closing brace. -/
def parseFields : Nat → List Char → Option (JsonObj × List Char)
  | 0, _ => none
  | fuel + 1, l =>
    match l with
    | '"' :: rest =>
      match parseStrBody rest with
      | some (k, r) =>
        match r with
        | ':' :: r2 =>
          match parseVal fuel r2 with
          | some (v, r3) =>
            match r3 with
            | ',' :: r4 =>
              match parseFields fuel r4 with
              | some (fs, r5) => some (JsonObj.cons (String.mk k) v fs, r5)
              | none => none
            | '\x7d' :: r4 => some (JsonObj.cons (String.mk k) v JsonObj.nil, r4)
            | _ => none
          | none => none
        | _ => none
      | none => none
    | _ => none
end

/-- Modelled from the spec: `JSON.parse`, succeeding only when the whole
text is consumed. -/
def parseJson (s : String) : Option Json :=
  match parseVal (s.data.length + 1) s.data with
  | some (v, []) => some v
  | _ => none

/-- Does a character list *not* begin with a decimal digit? -/
def notDigitHead : List Char → Bool
  | [] => true
  | c :: _ => !isDigitCh c

mutual
/-- Fuel needed by `parseVal` on the rendering of `v`. -/
def jfuel : Json → Nat
  | .null => 1
  | .jbool _ => 1
  | .jnum _ => 1
  | .jstr _ => 1
  | .jarr items => arrFuel items + 1
  | .jobj fields => objFuel fields + 1

/-- Fuel needed by `parseItems` on the rendering of array elements. -/
def arrFuel : JsonArr → Nat
  | .nil => 0
  | .cons v rest => jfuel v + arrFuel rest + 1

/-- Fuel needed by `parseFields` on the rendering of object fields. -/
def objFuel : JsonObj → Nat
  | .nil => 0
  | .cons _ v rest => jfuel v + objFuel rest + 1
end

/-! ## The history store (`MysqlAdapter.ts`) -/

/-- One row of the `history` table (spec section 6 schema) as stored:
`options` holds the serialized JSON text, `rid` the auto-increment
surrogate id. -/
structure HistoryRow where
  rid : Nat
  ref : String
  keyword : String
  answer : String
  refSerialize : String
  phone : String
  options : String
deriving Repr, DecidableEq

/-- The `history` table plus the auto-increment counter. -/
structure HistoryDB where
  rows : List HistoryRow
  nextId : Nat
deriving Repr, DecidableEq

/-- The argument record of `save` (`ctx`). -/
structure SaveCtx where
  ref : String
  keyword : String
  answer : String
  refSerialize : String
  fromNumber : String
  options : Json
deriving Repr

/-- `save` from `MysqlAdapter.ts`: INSERT of
`(ref, keyword, answer, refSerialize, phone, JSON.stringify(options))`,
the auto-increment id being assigned by the database. -/
def save (ctx : SaveCtx) (db : HistoryDB) : HistoryDB :=
  let newRow : HistoryRow :=
    { rid := db.nextId, ref := ctx.ref, keyword := ctx.keyword, answer := ctx.answer,
      refSerialize := ctx.refSerialize, phone := ctx.fromNumber,
      options := jstringify ctx.options }
  { rows := db.rows ++ [newRow], nextId := db.nextId + 1 }

/-- Insertion into a descending-by-id sorted list. -/
def insertDesc (r : HistoryRow) : List HistoryRow → List HistoryRow
  | [] => [r]
  | x :: xs => if x.rid ≤ r.rid then r :: x :: xs else x :: insertDesc r xs

/-- `ORDER BY id DESC` (insertion sort on the surrogate id, descending). -/
def sortByIdDesc : List HistoryRow → List HistoryRow
  | [] => []
  | r :: rs => insertDesc r (sortByIdDesc rs)

/-- A row as returned by `getPrevByNumber`: the raw row together with the
parsed value of its `options` column
(`row.options = JSON.parse(row.options)`). -/
structure ParsedRow where
  row : HistoryRow
  optionsVal : Json
deriving Repr

/-- `getPrevByNumber` from `MysqlAdapter.ts`:
`SELECT * FROM history WHERE phone = ? ORDER BY id DESC`, then `rows[0]`
with `options` parsed (`JSON.parse` throwing on malformed text is
`Except.error`), or an empty object (modelled `none`) when no row
matches. -/
def getPrevByNumber (phone : String) (db : HistoryDB) : Except Unit (Option ParsedRow) :=
  match sortByIdDesc (db.rows.filter (fun r => r.phone == phone)) with
  | [] => Except.ok none
  | r :: _ =>
    match parseJson r.options with
    | some v => Except.ok (some { row := r, optionsVal := v })
    | none => Except.error ()

/-- Follows the spec text for `latestFor`: the record with the greatest
surrogate id among the given rows (`none` when there are none); a tie,
impossible for distinct ids, resolves to the earlier row. -/
def maxIdRow : List HistoryRow → Option HistoryRow
  | [] => none
  | r :: rs =>
    match maxIdRow rs with
    | none => some r
    | some m => if m.rid ≤ r.rid then some r else some m

/-! ## Connection scoping of the store operations -/

/-- Pool connection events. -/
inductive ConnEv where
  | acq : ConnEv
  | rel : ConnEv
deriving Repr, DecidableEq

/-- The `try / catch / finally` shape shared by the four store operations:
`connection` is defined only once `getConnection` resolved, and the
`finally` block releases it exactly when it is defined. -/
def withConnEvents (acqOk : Bool) (bodyEvents : List ConnEv) : List ConnEv :=
  if acqOk then ConnEv.acq :: bodyEvents ++ [ConnEv.rel] else []

/-- Connection events of `getPrevByNumber` (`acqOk`: `getConnection`
resolved; `queryOk`: the SELECT resolved; `parseOk`: `JSON.parse` did not
throw).  Query and parse touch no pool connection themselves. -/
def getPrevByNumber_connEvents (acqOk queryOk parseOk : Bool) : List ConnEv :=
  withConnEvents acqOk []

/-- Connection events of `save` (`execOk`: the INSERT resolved). -/
def save_connEvents (acqOk execOk : Bool) : List ConnEv :=
  withConnEvents acqOk []

/-- Connection events of `createTable` (`queryOk`: the CREATE resolved). -/
def createTable_connEvents (acqOk queryOk : Bool) : List ConnEv :=
  withConnEvents acqOk []

/-- Connection events of `checkTableExists`: while holding its own
connection it awaits `createTable` (which acquires a second one) exactly
when the SHOW TABLES query resolved and reported no `history` table. -/
def checkTableExists_connEvents (acqOk showOk tableExists cAcqOk cQueryOk : Bool) : List ConnEv :=
  withConnEvents acqOk
    (if showOk && !tableExists then createTable_connEvents cAcqOk cQueryOk else [])

/-- As many releases as acquisitions: the number of checked-out
connections is unchanged. -/
def balanced (t : List ConnEv) : Bool :=
  t.count ConnEv.acq == t.count ConnEv.rel

/-! ## Startup ordering: constructor, `init`, `save` -/

/-- Events of one adapter execution. -/
inductive Ev where
  | initStart : Ev
  | initEnd : Ev
  | ctorDone : Ev
  | saveStart (n : Nat) : Ev
deriving Repr, DecidableEq

/-- Is this event the start of a `save` call? -/
def isSaveStart : Ev → Bool
  | .saveStart _ => true
  | _ => false

/-- Scanning the trace left to right, `e` is reached before any `save`
starts (also true when no `save` ever starts). -/
def savesAfter (e : Ev) : List Ev → Bool
  | [] => true
  | x :: rest => if x = e then true else if isSaveStart x then false else savesAfter e rest

/-- No occurrence of `b` precedes the first occurrence of `a`. -/
def occursBefore (a b : Ev) : List Ev → Bool
  | [] => true
  | x :: rest => if x = b then false else if x = a then true else occursBefore a b rest

/-- Happens-before constraints of an adapter execution, read off
`MysqlAdapter.ts`: the constructor body calls `this.init().then()` — so
`init` starts before the constructor returns — but does not await it;
`init` can only end after it started; `save` is an instance method, so no
`save` can start before the constructor returned.  Nothing orders the end
of `init` against `save`: the constructor fires `init` and forgets it, and
`save` never consults it. -/
def validTrace (t : List Ev) : Bool :=
  decide (t.count Ev.initStart ≤ 1) && decide (t.count Ev.ctorDone ≤ 1) &&
    decide (t.count Ev.initEnd ≤ 1) &&
    occursBefore Ev.initStart Ev.ctorDone t && occursBefore Ev.initStart Ev.initEnd t &&
    savesAfter Ev.ctorDone t

/-- The claim under test: the schema bootstrap has finished before any
`save` starts. -/
def schemaBeforeSaves (t : List Ev) : Bool := savesAfter Ev.initEnd t

/-- The bootstrap has at least started before any `save` starts. -/
def bootstrapStartedBeforeSaves (t : List Ev) : Bool := savesAfter Ev.initStart t

/-! ## Pool health monitoring and recreation (`checkConnection` / `recreatePool`) -/

/-- The stored credentials (`this.credentials`). -/
structure Credentials where
  host : String
  user : String
  database : String
  password : String
  port : Nat
deriving Repr, DecidableEq

/-- Status of a mysql2 pool object; `end()` closes it. -/
inductive PoolStatus where
  | opened : PoolStatus
  | closed : PoolStatus
deriving Repr, DecidableEq

/-- A pool object: identity, the credentials it was built from, status. -/
structure Pool where
  pid : Nat
  creds : Credentials
  status : PoolStatus
deriving Repr, DecidableEq

/-- The adapter state relevant to recreation: the current pool
(`this.pool`), the stored credentials, whether the schema bootstrap is
known satisfied, and the id supply for freshly constructed pools. -/
structure Adapter where
  pool : Pool
  credentials : Credentials
  schemaOk : Bool
  nextPid : Nat
deriving Repr, DecidableEq

/-- Observable actions of the recreation code paths. -/
inductive AEvent where
  | poolEnded (pid : Nat) : AEvent
  | poolCreated (pid : Nat) : AEvent
  | initRan (ok : Bool) : AEvent
  | errorLogged : AEvent
deriving Repr, DecidableEq

/-- Is this event the construction of a fresh pool? -/
def isPoolCreated : AEvent → Bool
  | .poolCreated _ => true
  | _ => false

/-- `init` from `MysqlAdapter.ts`: awaits `checkTableExists`, swallowing
its error (logged only).  `tableOk` injects the outcome of the table
check/creation against the current pool. -/
def init (st : Adapter) (tableOk : Bool) : Adapter × List AEvent :=
  if tableOk then ({ st with schemaOk := true }, [AEvent.initRan true])
  else (st, [AEvent.initRan false, AEvent.errorLogged])

/-- `recreatePool` from `MysqlAdapter.ts`: `this.pool.end()`; when it
resolves, a fresh pool is constructed from `this.credentials`, assigned to
`this.pool`, and `this.init()` re-runs; when it rejects, only an error is
logged.  `endOk` and `tableOk` inject the outcomes of the two external
operations. -/
def recreatePool (st : Adapter) (endOk tableOk : Bool) : Adapter × List AEvent :=
  if endOk then
    let newPool : Pool :=
      { pid := st.nextPid, creds := st.credentials, status := PoolStatus.opened }
    let st1 : Adapter := { st with pool := newPool, nextPid := st.nextPid + 1 }
    let res := init st1 tableOk
    (res.1, AEvent.poolEnded st.pool.pid :: AEvent.poolCreated newPool.pid :: res.2)
  else
    (st, [AEvent.errorLogged])

/-- `checkConnection` from `MysqlAdapter.ts`: acquire-and-release liveness
probe; on probe failure, `recreatePool`. -/
def checkConnection (st : Adapter) (probeOk endOk tableOk : Bool) : Adapter × List AEvent :=
  if probeOk then (st, []) else recreatePool st endOk tableOk

/-! ## Pool replacement as seen by concurrent consumers -/

/-- The pool handle state a consumer dereferences: which pool object
`this.pool` references, that object's status, and whether a recreation is
in flight (`end()` called, swap callback pending). -/
structure PoolSys where
  cur : Nat
  curStatus : PoolStatus
  draining : Bool
deriving Repr, DecidableEq

/-- Event-loop steps of the recreation protocol in `recreatePool`:
`beginRecreate` is its synchronous prefix — calling `this.pool.end()`
closes the referenced pool; `finishSwap` is the `end().then` callback,
assigning the freshly constructed open pool to `this.pool` in one pointer
swap.  Consumer calls never mutate this state. -/
inductive SysStep : PoolSys → PoolSys → Prop where
  | beginRecreate (s : PoolSys) (h : s.draining = false) :
      SysStep s { cur := s.cur, curStatus := PoolStatus.closed, draining := true }
  | finishSwap (s : PoolSys) (newId : Nat) (h : s.draining = true) :
      SysStep s { cur := newId, curStatus := PoolStatus.opened, draining := false }

/-- States reachable from the constructor state (fresh open pool). -/
inductive PoolReachable : PoolSys → Prop where
  | start : PoolReachable { cur := 0, curStatus := PoolStatus.opened, draining := false }
  | step {s s2 : PoolSys} : PoolReachable s → SysStep s s2 → PoolReachable s2

/-- Outcome of one consumer call (`save`/`getPrevByNumber` acquiring via
`getConnection`). -/
inductive CallResult where
  | conn (pid : Nat) : CallResult
  | unavailable : CallResult
deriving Repr, DecidableEq

/-- Modelled from the spec: `this.pool.getConnection()` dereferences the
handle once; an open pool grants a connection, a closed (ended or
draining) pool rejects immediately with a pool-closed error, which
`getConnection` rethrows (mysql2 pool contract).  Totality is the no-hang
property: every call resolves in one step. -/
def getConnection (s : PoolSys) : CallResult :=
  match s.curStatus with
  | PoolStatus.opened => CallResult.conn s.cur
  | PoolStatus.closed => CallResult.unavailable

/-! ## The registration flow -/

/-- Per-conversation key-value state (builderbot `state`). -/
abbrev StMap := List (String × String)

/-- Modelled from the spec: `state.update` merges one key-value pair into
the conversation state. -/
def setKey (k v : String) (st : StMap) : StMap :=
  (k, v) :: st.filter (fun p => p.1 != k)

/-- Modelled from the spec: `state.get`. -/
def stateGet (k : String) (st : StMap) : Option String :=
  (st.find? (fun p => p.1 == k)).map (fun p => p.2)

/-- `state.get` as interpolated into a template string: JavaScript renders
a missing key as `undefined`. -/
def stateGetD (k : String) (st : StMap) : String := (stateGet k st).getD "undefined"

/-- One step of a flow node: `addAnswer msg (capture flag) callback` or
`addAction run`. -/
inductive RStep where
  | answer (msg : String) (capture : Bool) (cb : String → StMap → StMap) : RStep
  | action (run : StMap → String) : RStep

/-- `registerFlow` from the application file: an event-triggered node with
two capture answers writing `name` and `age`, and a final action emitting
the summary line built from the state. -/
def registerFlowSteps : List RStep :=
  [RStep.answer "What is your name?" true (fun body st => setKey "name" body st),
   RStep.answer "What is your age?" true (fun body st => setKey "age" body st),
   RStep.action (fun st =>
     stateGetD "name" st ++ ", thanks for your information!: Your age: " ++ stateGetD "age" st)]

/-- Modelled from the spec: the engine walks the remaining steps of a node,
emitting messages: a capture answer emits its prompt and suspends (final
component `true`); a plain answer emits and advances; an action runs and
advances. -/
def runSteps (st : StMap) : List RStep → StMap × List String × Bool
  | [] => (st, [], false)
  | RStep.answer msg true _ :: _ => (st, [msg], true)
  | RStep.answer msg false _ :: rest =>
    let res := runSteps st rest
    (res.1, msg :: res.2.1, res.2.2)
  | RStep.action f :: rest =>
    let m := f st
    let res := runSteps st rest
    (res.1, m :: res.2.1, res.2.2)

/-- Modelled from the spec: delivering an inbound message to a conversation
suspended at the head capture step runs that step's callback on the
message body, then advances through the following steps. -/
def deliverAt (st : StMap) (body : String) : List RStep → StMap × List String × Bool
  | RStep.answer _ true cb :: rest => runSteps (cb body st) rest
  | _ => (st, [], false)

/-! ## The `/v1/blacklist` HTTP handler -/

/-- An HTTP response as produced by the handler. -/
structure HttpRes where
  status : Nat
  contentType : String
  body : String
deriving Repr, DecidableEq

/-- Modelled from the spec: `bot.blacklist.add` — set insertion. -/
def blacklistAdd (n : String) (bl : List String) : List String :=
  if n ∈ bl then bl else n :: bl

/-- Modelled from the spec: `bot.blacklist.remove` — set removal. -/
def blacklistRemove (n : String) (bl : List String) : List String :=
  bl.filter (fun x => x != n)

/-- The `/v1/blacklist` handler from the application file: conditional
remove, then conditional add (in source order), then an unconditional
`writeHead(200, application/json)` and a JSON body echoing
`status`, `number` and `intent`. -/
def blacklistHandler (number intent : String) (bl : List String) : List String × HttpRes :=
  let bl1 := if intent = "remove" then blacklistRemove number bl else bl
  let bl2 := if intent = "add" then blacklistAdd number bl1 else bl1
  (bl2,
    { status := 200, contentType := "application/json",
      body := jstringify (Json.jobj (JsonObj.cons "status" (Json.jstr "ok")
        (JsonObj.cons "number" (Json.jstr number)
          (JsonObj.cons "intent" (Json.jstr intent) JsonObj.nil)))) })


/-- A well-formed `history` table: every stored row has an id below the
auto-increment counter (as the backing database maintains). -/
def dbWF (db : HistoryDB) : Prop := ∀ r ∈ db.rows, r.rid < db.nextId

/-! ## Theorems -/

theorem natDigitsAux_unDigits : ∀ fuel n, n ≤ fuel → unDigits (natDigitsAux fuel n) = n := by
  intro fuel
  induction fuel with
  | zero => intro n h; interval_cases n; rfl
  | succ fuel ih =>
    intro n h
    by_cases hn : n = 0
    · simp [natDigitsAux, hn, unDigits]
    · have hd : n / 10 ≤ fuel := by omega
      simp [natDigitsAux, hn, unDigits, ih _ hd]
      omega

theorem natDigits_unDigits (n : Nat) : unDigits (natDigits n) = n :=
  natDigitsAux_unDigits n n (Nat.le_refl n)

theorem natDigitsAux_lt : ∀ fuel n d, d ∈ natDigitsAux fuel n → d < 10 := by
  intro fuel
  induction fuel with
  | zero => intro n d h; simp [natDigitsAux] at h
  | succ fuel ih =>
    intro n d h
    by_cases hn : n = 0
    · simp [natDigitsAux, hn] at h
    · simp [natDigitsAux, hn] at h
      rcases h with h | h
      · omega
      · exact ih _ _ h

theorem natDigits_lt (n d : Nat) (h : d ∈ natDigits n) : d < 10 :=
  natDigitsAux_lt n n d h

theorem natDigits_ne_nil (n : Nat) (h : n ≠ 0) : natDigits n ≠ [] := by
  unfold natDigits natDigitsAux
  cases n with
  | zero => omega
  | succ m => simp

theorem isDigitCh_digChar (d : Nat) (h : d < 10) : isDigitCh (digChar d) = true := by
  interval_cases d <;> decide

theorem digValCh_digChar (d : Nat) (h : d < 10) : digValCh (digChar d) = d := by
  interval_cases d <;> decide

theorem natCharsFix_all_digits (n : Nat) : ∀ c ∈ natCharsFix n, isDigitCh c = true := by
  intro c hc
  by_cases hn : n = 0
  · simp [natCharsFix, hn] at hc
    subst hc; decide
  · simp [natCharsFix, hn, natChars] at hc
    obtain ⟨d, hd, rfl⟩ := hc
    exact isDigitCh_digChar d (natDigits_lt n d hd)

theorem natCharsFix_ne_nil (n : Nat) : natCharsFix n ≠ [] := by
  by_cases hn : n = 0
  · simp [natCharsFix, hn]
  · simp [natCharsFix, hn, natChars]
    exact natDigits_ne_nil n hn

theorem intChars_ne_nil (i : Int) : intChars i ≠ [] := by
  unfold intChars
  by_cases hi : i < 0
  · simp [hi]
  · simp [hi, natCharsFix_ne_nil]

theorem takeWhile_append_all :
    ∀ (a b : List Char), (∀ c ∈ a, isDigitCh c = true) → notDigitHead b = true →
      (a ++ b).takeWhile isDigitCh = a ∧ (a ++ b).dropWhile isDigitCh = b := by
  intro a
  induction a with
  | nil =>
    intro b _ hb
    cases b with
    | nil => simp
    | cons c bs =>
      have hc : isDigitCh c = false := by simpa [notDigitHead] using hb
      simp_all [List.takeWhile, List.dropWhile]
  | cons x xs ih =>
    intro b ha hb
    have hx : isDigitCh x = true := ha x (by simp)
    have ihx := ih b (fun c hc => ha c (by simp [hc])) hb
    simp [List.takeWhile, List.dropWhile, hx, ihx.1, ihx.2]

theorem foldl_digChar : ∀ (ds : List Nat), (∀ d ∈ ds, d < 10) → ∀ acc : Nat,
    ((ds.reverse.map digChar).foldl (fun a c => a * 10 + digValCh c) acc) =
      acc * 10 ^ ds.length + unDigits ds := by
  intro ds
  induction ds with
  | nil => intro _ acc; simp [unDigits]
  | cons d ds ih =>
    intro h acc
    have hd : d < 10 := h d (by simp)
    have hds : ∀ e ∈ ds, e < 10 := fun e he => h e (by simp [he])
    simp only [List.reverse_cons, List.map_append, List.map_cons, List.map_nil,
      List.foldl_append, List.foldl_cons, List.foldl_nil]
    rw [ih hds acc]
    rw [digValCh_digChar d hd]
    simp [unDigits, List.length_cons]
    ring

theorem parseNatChars_natCharsFix (n : Nat) (rest : List Char) (h : notDigitHead rest = true) :
    parseNatChars (natCharsFix n ++ rest) = some (n, rest) := by
  have hall := natCharsFix_all_digits n
  have htw := takeWhile_append_all (natCharsFix n) rest hall h
  have hne := natCharsFix_ne_nil n
  unfold parseNatChars
  simp only [htw.1, htw.2]
  rw [if_neg (by simpa [List.isEmpty_iff] using hne)]
  by_cases hn : n = 0
  · subst hn
    have h0 : List.foldl (fun a c => a * 10 + digValCh c) 0 (natCharsFix 0) = 0 := by decide
    rw [h0]
  · have hform : natCharsFix n = (natDigits n).reverse.map digChar := by
      simp [natCharsFix, hn, natChars]
    rw [hform, foldl_digChar _ (fun d hd => natDigits_lt n d hd) 0]
    simp [natDigits_unDigits]

theorem digit_ne_special (c : Char) (h : isDigitCh c = true) :
    ¬c = 'n' ∧ ¬c = 't' ∧ ¬c = 'f' ∧ ¬c = '"' ∧ ¬c = '-' ∧ ¬c = '[' ∧ ¬c = '\x7b' ∧
      ¬c = ']' ∧ ¬c = '\x7d' ∧ ¬c = ',' ∧ ¬c = ':' := by
  refine ⟨?_, ?_, ?_, ?_, ?_, ?_, ?_, ?_, ?_, ?_, ?_⟩ <;>
    (intro he; subst he; exact absurd h (by decide))

theorem mk_data (s : String) : String.mk s.data = s := by
  cases s; rfl
theorem hexValCh_hexDig (n : Nat) (h : n < 16) : hexValCh (hexDig n) = some n := by
  interval_cases n <;> decide

theorem parseStrBody_quote (rest : List Char) : parseStrBody ('"' :: rest) = some ([], rest) := by
  rw [parseStrBody.eq_def]; rfl

theorem parseStrBody_escStr : ∀ s rest, parseStrBody (escStr s ++ '"' :: rest) = some (s, rest) := by
  intro s
  induction s with
  | nil => intro rest; simpa [escStr] using parseStrBody_quote rest
  | cons c s ih =>
    intro rest
    have hesc : escStr (c :: s) ++ '"' :: rest = escChar c ++ (escStr s ++ '"' :: rest) := by
      simp [escStr]
    rw [hesc]
    by_cases h1 : c = '"'
    · subst h1
      have step : parseStrBody ('\\' :: '"' :: (escStr s ++ '"' :: rest)) =
          (match parseStrBody (escStr s ++ '"' :: rest) with
           | some (t, r) => some ('"' :: t, r)
           | none => none) := by rw [parseStrBody.eq_def]; rfl
      simp [escChar, step, ih]
    by_cases h2 : c = '\\'
    · subst h2
      have step : parseStrBody ('\\' :: '\\' :: (escStr s ++ '"' :: rest)) =
          (match parseStrBody (escStr s ++ '"' :: rest) with
           | some (t, r) => some ('\\' :: t, r)
           | none => none) := by rw [parseStrBody.eq_def]; rfl
      simp [escChar, step, ih]
    by_cases h3 : c = '\x08'
    · subst h3
      have step : parseStrBody ('\\' :: 'b' :: (escStr s ++ '"' :: rest)) =
          (match parseStrBody (escStr s ++ '"' :: rest) with
           | some (t, r) => some ('\x08' :: t, r)
           | none => none) := by rw [parseStrBody.eq_def]; rfl
      simp [escChar, h1, h2, step, ih]
    by_cases h4 : c = '\x09'
    · subst h4
      have step : parseStrBody ('\\' :: 't' :: (escStr s ++ '"' :: rest)) =
          (match parseStrBody (escStr s ++ '"' :: rest) with
           | some (t, r) => some ('\x09' :: t, r)
           | none => none) := by rw [parseStrBody.eq_def]; rfl
      simp [escChar, h1, h2, h3, step, ih]
    by_cases h5 : c = '\x0a'
    · subst h5
      have step : parseStrBody ('\\' :: 'n' :: (escStr s ++ '"' :: rest)) =
          (match parseStrBody (escStr s ++ '"' :: rest) with
           | some (t, r) => some ('\x0a' :: t, r)
           | none => none) := by rw [parseStrBody.eq_def]; rfl
      simp [escChar, h1, h2, h3, h4, step, ih]
    by_cases h6 : c = '\x0c'
    · subst h6
      have step : parseStrBody ('\\' :: 'f' :: (escStr s ++ '"' :: rest)) =
          (match parseStrBody (escStr s ++ '"' :: rest) with
           | some (t, r) => some ('\x0c' :: t, r)
           | none => none) := by rw [parseStrBody.eq_def]; rfl
      simp [escChar, h1, h2, h3, h4, h5, step, ih]
    by_cases h7 : c = '\x0d'
    · subst h7
      have step : parseStrBody ('\\' :: 'r' :: (escStr s ++ '"' :: rest)) =
          (match parseStrBody (escStr s ++ '"' :: rest) with
           | some (t, r) => some ('\x0d' :: t, r)
           | none => none) := by rw [parseStrBody.eq_def]; rfl
      simp [escChar, h1, h2, h3, h4, h5, h6, step, ih]
    by_cases h8 : c.toNat < 32
    · have hesc2 : escChar c = ['\\', 'u', '0', '0', hexDig (c.toNat / 16), hexDig (c.toNat % 16)] := by
        simp [escChar, h1, h2, h3, h4, h5, h6, h7, h8]
      rw [hesc2]
      simp only [List.cons_append, List.nil_append]
      have step : parseStrBody ('\\' :: 'u' :: '0' :: '0' :: hexDig (c.toNat / 16) ::
            hexDig (c.toNat % 16) :: (escStr s ++ '"' :: rest)) =
          (match hexValCh '0', hexValCh '0', hexValCh (hexDig (c.toNat / 16)),
              hexValCh (hexDig (c.toNat % 16)) with
           | some a, some b, some c3, some d =>
             (match parseStrBody (escStr s ++ '"' :: rest) with
              | some (t, r) => some (Char.ofNat (((a * 16 + b) * 16 + c3) * 16 + d) :: t, r)
              | none => none)
           | _, _, _, _ => none) := by rw [parseStrBody.eq_def]; rfl
      have hd1 : hexValCh (hexDig (c.toNat / 16)) = some (c.toNat / 16) :=
        hexValCh_hexDig _ (by omega)
      have hd2 : hexValCh (hexDig (c.toNat % 16)) = some (c.toNat % 16) :=
        hexValCh_hexDig _ (by omega)
      have hd0 : hexValCh '0' = some 0 := by decide
      have harith : ((0 * 16 + 0) * 16 + c.toNat / 16) * 16 + c.toNat % 16 = c.toNat := by omega
      rw [step, hd0, hd1, hd2, ih]
      have h9 : c.toNat / 16 * 16 + c.toNat % 16 = c.toNat := by omega
      simp only [h9, Char.ofNat_toNat]
      simp [h9, Char.ofNat_toNat]
    · have hesc2 : escChar c = [c] := by
        simp [escChar, h1, h2, h3, h4, h5, h6, h7, h8]
      rw [hesc2]
      simp only [List.cons_append, List.nil_append]
      have step : parseStrBody (c :: (escStr s ++ '"' :: rest)) =
          (match parseStrBody (escStr s ++ '"' :: rest) with
           | some (t, r) => some (c :: t, r)
           | none => none) := by
        rw [parseStrBody.eq_def]
        simp only [if_neg h1, if_neg h2]
      simp [step, ih]

theorem head?_append_ne_nil (l m : List Char) (h : l ≠ []) : (l ++ m).head? = l.head? := by
  cases l with
  | nil => exact absurd rfl h
  | cons c cs => rfl

theorem notDigitHead_cons (c : Char) (r : List Char) : notDigitHead (c :: r) = !isDigitCh c := rfl

theorem jesChars_ne_nil : ∀ v : Json, jesChars v ≠ [] := by
  intro v
  cases v with
  | null => simp [jesChars]
  | jbool b => cases b <;> simp [jesChars]
  | jnum i => simpa [jesChars] using intChars_ne_nil i
  | jstr s => simp [jesChars]
  | jarr items => simp [jesChars]
  | jobj fields => simp [jesChars]

theorem jesChars_head_ne_rbrack : ∀ v : Json, (jesChars v).head? ≠ some ']' := by
  intro v
  cases v with
  | null => simp [jesChars]
  | jbool b => cases b <;> simp [jesChars]
  | jnum i =>
    by_cases hi : i < 0
    · simp [jesChars, intChars, hi]
    · obtain ⟨c0, cs0, heq⟩ := List.exists_cons_of_ne_nil (natCharsFix_ne_nil i.natAbs)
      have hc0 : isDigitCh c0 = true := natCharsFix_all_digits _ c0 (by rw [heq]; simp)
      have hne := (digit_ne_special c0 hc0).2.2.2.2.2.2.2.1
      simp [jesChars, intChars, hi, heq, hne]
  | jstr s => simp [jesChars]
  | jarr items => simp [jesChars]
  | jobj fields => simp [jesChars]

theorem jfuel_pos : ∀ v : Json, 1 ≤ jfuel v := by
  intro v
  cases v <;> simp [jfuel]

mutual
theorem jfuel_le_len : (v : Json) → jfuel v ≤ (jesChars v).length
  | .null => by simp [jfuel, jesChars]
  | .jbool b => by cases b <;> simp [jfuel, jesChars]
  | .jnum i => by
    have h := intChars_ne_nil i
    have hl : 0 < (intChars i).length := List.length_pos.mpr h
    simp [jfuel, jesChars]
    omega
  | .jstr s => by simp [jfuel, jesChars]
  | .jarr items => by
    have h := arrFuel_le_len items
    simp [jfuel, jesChars]
    omega
  | .jobj fields => by
    have h := objFuel_le_len fields
    simp [jfuel, jesChars]
    omega

theorem arrFuel_le_len : (a : JsonArr) → arrFuel a ≤ (arrChars a).length + 1
  | .nil => by simp [arrFuel, arrChars]
  | .cons v .nil => by
    have h := jfuel_le_len v
    simp [arrFuel, arrChars, jfuel]
    omega
  | .cons v (.cons w rest) => by
    have h1 := jfuel_le_len v
    have h2 := arrFuel_le_len (JsonArr.cons w rest)
    simp [arrFuel, arrChars] at h2 ⊢
    omega

theorem objFuel_le_len : (o : JsonObj) → objFuel o ≤ (objChars o).length + 1
  | .nil => by simp [objFuel, objChars]
  | .cons k v .nil => by
    have h := jfuel_le_len v
    simp [objFuel, objChars]
    omega
  | .cons k v (.cons k2 v2 rest) => by
    have h1 := jfuel_le_len v
    have h2 := objFuel_le_len (JsonObj.cons k2 v2 rest)
    simp [objFuel, objChars] at h2 ⊢
    omega
end

theorem parseVal_null_step (fuel : Nat) (r : List Char) :
    parseVal (fuel + 1) ('n' :: 'u' :: 'l' :: 'l' :: r) = some (Json.null, r) := by
  rw [parseVal.eq_def]; rfl

theorem parseVal_true_step (fuel : Nat) (r : List Char) :
    parseVal (fuel + 1) ('t' :: 'r' :: 'u' :: 'e' :: r) = some (Json.jbool true, r) := by
  rw [parseVal.eq_def]; rfl

theorem parseVal_false_step (fuel : Nat) (r : List Char) :
    parseVal (fuel + 1) ('f' :: 'a' :: 'l' :: 's' :: 'e' :: r) = some (Json.jbool false, r) := by
  rw [parseVal.eq_def]; rfl

theorem parseVal_str_step (fuel : Nat) (X : List Char) :
    parseVal (fuel + 1) ('"' :: X) =
      (match parseStrBody X with
       | some (s, r) => some (Json.jstr (String.mk s), r)
       | none => none) := by
  rw [parseVal.eq_def]; rfl

theorem parseVal_neg_step (fuel : Nat) (X : List Char) :
    parseVal (fuel + 1) ('-' :: X) =
      (match parseNatChars X with
       | some (n, r) => some (Json.jnum (-(n : Int)), r)
       | none => none) := by
  rw [parseVal.eq_def]; rfl

theorem parseVal_cons_step (fuel : Nat) (c : Char) (X : List Char) :
    parseVal (fuel + 1) (c :: X) =
      (if c = 'n' then
        match X with
        | 'u' :: 'l' :: 'l' :: r => some (Json.null, r)
        | _ => none
      else if c = 't' then
        match X with
        | 'r' :: 'u' :: 'e' :: r => some (Json.jbool true, r)
        | _ => none
      else if c = 'f' then
        match X with
        | 'a' :: 'l' :: 's' :: 'e' :: r => some (Json.jbool false, r)
        | _ => none
      else if c = '"' then
        match parseStrBody X with
        | some (s, r) => some (Json.jstr (String.mk s), r)
        | none => none
      else if c = '-' then
        match parseNatChars X with
        | some (n, r) => some (Json.jnum (-(n : Int)), r)
        | none => none
      else if isDigitCh c then
        match parseNatChars (c :: X) with
        | some (n, r) => some (Json.jnum (n : Int), r)
        | none => none
      else if c = '[' then
        if X.head? = some ']' then some (Json.jarr JsonArr.nil, X.tail)
        else
          match parseItems fuel X with
          | some (items, r) => some (Json.jarr items, r)
          | none => none
      else if c = '\x7b' then
        if X.head? = some '\x7d' then some (Json.jobj JsonObj.nil, X.tail)
        else
          match parseFields fuel X with
          | some (fs, r) => some (Json.jobj fs, r)
          | none => none
      else none) := by
  rw [parseVal.eq_def]

theorem parseVal_digit_step (fuel : Nat) (c : Char) (X : List Char) (h : isDigitCh c = true) :
    parseVal (fuel + 1) (c :: X) =
      (match parseNatChars (c :: X) with
       | some (n, r) => some (Json.jnum (n : Int), r)
       | none => none) := by
  obtain ⟨hn, ht, hf, hq, hm, _, _, _, _, _, _⟩ := digit_ne_special c h
  rw [parseVal_cons_step]
  rw [if_neg hn, if_neg ht, if_neg hf, if_neg hq, if_neg hm, if_pos h]

theorem parseVal_arr_step (fuel : Nat) (X : List Char) (hne : X.head? ≠ some ']') :
    parseVal (fuel + 1) ('[' :: X) =
      (match parseItems fuel X with
       | some (items, r) => some (Json.jarr items, r)
       | none => none) := by
  rw [parseVal_cons_step]
  rw [if_neg (by decide : ¬('[' : Char) = 'n'), if_neg (by decide : ¬('[' : Char) = 't'),
    if_neg (by decide : ¬('[' : Char) = 'f'), if_neg (by decide : ¬('[' : Char) = '"'),
    if_neg (by decide : ¬('[' : Char) = '-'), if_neg (by decide : ¬isDigitCh '[' = true),
    if_pos (rfl : ('[' : Char) = '['), if_neg hne]

theorem parseVal_obj_step (fuel : Nat) (X : List Char) (hne : X.head? ≠ some '\x7d') :
    parseVal (fuel + 1) ('\x7b' :: X) =
      (match parseFields fuel X with
       | some (fs, r) => some (Json.jobj fs, r)
       | none => none) := by
  rw [parseVal_cons_step]
  rw [if_neg (by decide : ¬('\x7b' : Char) = 'n'), if_neg (by decide : ¬('\x7b' : Char) = 't'),
    if_neg (by decide : ¬('\x7b' : Char) = 'f'), if_neg (by decide : ¬('\x7b' : Char) = '"'),
    if_neg (by decide : ¬('\x7b' : Char) = '-'), if_neg (by decide : ¬isDigitCh '\x7b' = true),
    if_neg (by decide : ¬('\x7b' : Char) = '['), if_pos (rfl : ('\x7b' : Char) = '\x7b'),
    if_neg hne]

theorem parseVal_arr_nil_step (fuel : Nat) (r : List Char) :
    parseVal (fuel + 1) ('[' :: ']' :: r) = some (Json.jarr JsonArr.nil, r) := by
  rw [parseVal.eq_def]; rfl

theorem parseVal_obj_nil_step (fuel : Nat) (r : List Char) :
    parseVal (fuel + 1) ('\x7b' :: '\x7d' :: r) = some (Json.jobj JsonObj.nil, r) := by
  rw [parseVal.eq_def]; rfl

theorem parseItems_step (fuel : Nat) (l : List Char) :
    parseItems (fuel + 1) l =
      (match parseVal fuel l with
       | some (v, r) =>
         match r with
         | ',' :: r2 =>
           (match parseItems fuel r2 with
            | some (items, r3) => some (JsonArr.cons v items, r3)
            | none => none)
         | ']' :: r2 => some (JsonArr.cons v JsonArr.nil, r2)
         | _ => none
       | none => none) := by
  rw [parseItems.eq_def]

theorem parseFields_step (fuel : Nat) (X : List Char) :
    parseFields (fuel + 1) ('"' :: X) =
      (match parseStrBody X with
       | some (k, r) =>
         match r with
         | ':' :: r2 =>
           (match parseVal fuel r2 with
            | some (v, r3) =>
              match r3 with
              | ',' :: r4 =>
                (match parseFields fuel r4 with
                 | some (fs, r5) => some (JsonObj.cons (String.mk k) v fs, r5)
                 | none => none)
              | '\x7d' :: r4 => some (JsonObj.cons (String.mk k) v JsonObj.nil, r4)
              | _ => none
            | none => none)
         | _ => none
       | none => none) := by
  rw [parseFields.eq_def]; rfl

theorem parse_jes_all : ∀ fuel : Nat,
    (∀ v rest, jfuel v ≤ fuel → notDigitHead rest = true →
      parseVal fuel (jesChars v ++ rest) = some (v, rest)) ∧
    (∀ items rest, items ≠ JsonArr.nil → arrFuel items ≤ fuel →
      parseItems fuel (arrChars items ++ ']' :: rest) = some (items, rest)) ∧
    (∀ fields rest, fields ≠ JsonObj.nil → objFuel fields ≤ fuel →
      parseFields fuel (objChars fields ++ '\x7d' :: rest) = some (fields, rest)) := by
  intro fuel
  induction fuel with
  | zero =>
    refine ⟨?_, ?_, ?_⟩
    · intro v rest hf _
      exact absurd hf (by have := jfuel_pos v; omega)
    · intro items rest hne hf
      cases items with
      | nil => exact absurd rfl hne
      | cons v tl => simp [arrFuel] at hf
    · intro fields rest hne hf
      cases fields with
      | nil => exact absurd rfl hne
      | cons k v tl => simp [objFuel] at hf
  | succ fuel ih =>
    obtain ⟨ihP, ihQ, ihR⟩ := ih
    refine ⟨?_, ?_, ?_⟩
    · intro v rest hf hnd
      cases v with
      | null =>
        have hsh : jesChars Json.null ++ rest = 'n' :: 'u' :: 'l' :: 'l' :: rest := by
          simp [jesChars]
        rw [hsh, parseVal_null_step]
      | jbool b =>
        cases b with
        | false =>
          have hsh : jesChars (Json.jbool false) ++ rest =
              'f' :: 'a' :: 'l' :: 's' :: 'e' :: rest := by simp [jesChars]
          rw [hsh, parseVal_false_step]
        | true =>
          have hsh : jesChars (Json.jbool true) ++ rest = 't' :: 'r' :: 'u' :: 'e' :: rest := by
            simp [jesChars]
          rw [hsh, parseVal_true_step]
      | jstr s =>
        have hsh : jesChars (Json.jstr s) ++ rest = '"' :: (escStr s.data ++ '"' :: rest) := by
          simp [jesChars]
        rw [hsh, parseVal_str_step, parseStrBody_escStr]
      | jnum i =>
        by_cases hi : i < 0
        · have hsh : jesChars (Json.jnum i) ++ rest = '-' :: (natCharsFix i.natAbs ++ rest) := by
            simp [jesChars, intChars, hi]
          rw [hsh, parseVal_neg_step, parseNatChars_natCharsFix _ _ hnd]
          have habs : (-(i.natAbs : Int)) = i := by omega
          show some (Json.jnum (-(i.natAbs : Int)), rest) = some (Json.jnum i, rest)
          rw [habs]
        · obtain ⟨c0, cs0, heq⟩ := List.exists_cons_of_ne_nil (natCharsFix_ne_nil i.natAbs)
          have hc0 : isDigitCh c0 = true := natCharsFix_all_digits _ c0 (by rw [heq]; simp)
          have hsh : jesChars (Json.jnum i) ++ rest = c0 :: (cs0 ++ rest) := by
            simp [jesChars, intChars, hi, heq]
          rw [hsh, parseVal_digit_step fuel c0 _ hc0]
          have hback : c0 :: (cs0 ++ rest) = natCharsFix i.natAbs ++ rest := by
            rw [heq]; simp
          rw [hback, parseNatChars_natCharsFix _ _ hnd]
          have habs : ((i.natAbs : Int)) = i := by omega
          show some (Json.jnum ((i.natAbs : Int)), rest) = some (Json.jnum i, rest)
          rw [habs]
      | jarr items =>
        cases items with
        | nil =>
          have hsh : jesChars (Json.jarr JsonArr.nil) ++ rest = '[' :: ']' :: rest := by
            simp [jesChars, arrChars]
          rw [hsh, parseVal_arr_nil_step]
        | cons v tl =>
          have hsh : jesChars (Json.jarr (JsonArr.cons v tl)) ++ rest =
              '[' :: (arrChars (JsonArr.cons v tl) ++ ']' :: rest) := by
            simp [jesChars]
          have hvne := jesChars_ne_nil v
          have hhead : (arrChars (JsonArr.cons v tl) ++ ']' :: rest).head? ≠ some ']' := by
            have harr : ∃ t, arrChars (JsonArr.cons v tl) = jesChars v ++ t := by
              cases tl with
              | nil => exact ⟨[], by simp [arrChars]⟩
              | cons w tl2 => exact ⟨',' :: arrChars (JsonArr.cons w tl2), by simp [arrChars]⟩
            obtain ⟨t, ht⟩ := harr
            rw [ht, List.append_assoc, head?_append_ne_nil _ _ hvne]
            exact jesChars_head_ne_rbrack v
          have hfa : arrFuel (JsonArr.cons v tl) ≤ fuel := by
            simp [jfuel] at hf; omega
          rw [hsh, parseVal_arr_step fuel _ hhead,
            ihQ (JsonArr.cons v tl) rest (by simp) hfa]
      | jobj fields =>
        cases fields with
        | nil =>
          have hsh : jesChars (Json.jobj JsonObj.nil) ++ rest = '\x7b' :: '\x7d' :: rest := by
            simp [jesChars, objChars]
          rw [hsh, parseVal_obj_nil_step]
        | cons k v tl =>
          have hsh : jesChars (Json.jobj (JsonObj.cons k v tl)) ++ rest =
              '\x7b' :: (objChars (JsonObj.cons k v tl) ++ '\x7d' :: rest) := by
            simp [jesChars]
          have hhead : (objChars (JsonObj.cons k v tl) ++ '\x7d' :: rest).head? ≠ some '\x7d' := by
            have hobj : ∃ t, objChars (JsonObj.cons k v tl) = '"' :: t := by
              cases tl with
              | nil => exact ⟨_, rfl⟩
              | cons k2 v2 tl2 => exact ⟨_, rfl⟩
            obtain ⟨t, ht⟩ := hobj
            rw [ht]
            simp
          have hfo : objFuel (JsonObj.cons k v tl) ≤ fuel := by
            simp [jfuel] at hf; omega
          rw [hsh, parseVal_obj_step fuel _ hhead,
            ihR (JsonObj.cons k v tl) rest (by simp) hfo]
    · intro items rest hne hf
      cases items with
      | nil => exact absurd rfl hne
      | cons v tl =>
        have hfv : jfuel v ≤ fuel := by simp [arrFuel] at hf; omega
        cases tl with
        | nil =>
          have hsh : arrChars (JsonArr.cons v JsonArr.nil) ++ ']' :: rest =
              jesChars v ++ ']' :: rest := by simp [arrChars]
          rw [parseItems_step, hsh,
            ihP v (']' :: rest) hfv (by rw [notDigitHead_cons]; decide)]
          rfl
        | cons w tl2 =>
          have hftl : arrFuel (JsonArr.cons w tl2) ≤ fuel := by
            simp [arrFuel] at hf ⊢; omega
          have hsh : arrChars (JsonArr.cons v (JsonArr.cons w tl2)) ++ ']' :: rest =
              jesChars v ++ ',' :: (arrChars (JsonArr.cons w tl2) ++ ']' :: rest) := by
            simp [arrChars]
          rw [parseItems_step, hsh,
            ihP v _ hfv (by rw [notDigitHead_cons]; decide)]
          change (match parseItems fuel (arrChars (JsonArr.cons w tl2) ++ ']' :: rest) with
            | some (items, r3) => some (JsonArr.cons v items, r3)
            | none => none) = some (JsonArr.cons v (JsonArr.cons w tl2), rest)
          rw [ihQ (JsonArr.cons w tl2) rest (by simp) hftl]
    · intro fields rest hne hf
      cases fields with
      | nil => exact absurd rfl hne
      | cons k v tl =>
        have hfv : jfuel v ≤ fuel := by simp [objFuel] at hf; omega
        cases tl with
        | nil =>
          have hsh : objChars (JsonObj.cons k v JsonObj.nil) ++ '\x7d' :: rest =
              '"' :: (escStr k.data ++ '"' :: (':' :: (jesChars v ++ '\x7d' :: rest))) := by
            simp [objChars]
          rw [hsh, parseFields_step, parseStrBody_escStr]
          change (match parseVal fuel (jesChars v ++ '\x7d' :: rest) with
            | some (v2, r3) =>
              match r3 with
              | ',' :: r4 =>
                (match parseFields fuel r4 with
                 | some (fs, r5) => some (JsonObj.cons (String.mk k.data) v2 fs, r5)
                 | none => none)
              | '\x7d' :: r4 => some (JsonObj.cons (String.mk k.data) v2 JsonObj.nil, r4)
              | _ => none
            | none => none) = some (JsonObj.cons k v JsonObj.nil, rest)
          rw [ihP v _ hfv (by rw [notDigitHead_cons]; decide)]
          simp [mk_data]
        | cons k2 v2 tl2 =>
          have hftl : objFuel (JsonObj.cons k2 v2 tl2) ≤ fuel := by
            simp [objFuel] at hf ⊢; omega
          have hsh : objChars (JsonObj.cons k v (JsonObj.cons k2 v2 tl2)) ++ '\x7d' :: rest =
              '"' :: (escStr k.data ++ '"' :: (':' :: (jesChars v ++
                ',' :: (objChars (JsonObj.cons k2 v2 tl2) ++ '\x7d' :: rest)))) := by
            simp [objChars]
          rw [hsh, parseFields_step, parseStrBody_escStr]
          change (match parseVal fuel (jesChars v ++
              ',' :: (objChars (JsonObj.cons k2 v2 tl2) ++ '\x7d' :: rest)) with
            | some (v3, r3) =>
              match r3 with
              | ',' :: r4 =>
                (match parseFields fuel r4 with
                 | some (fs, r5) => some (JsonObj.cons (String.mk k.data) v3 fs, r5)
                 | none => none)
              | '\x7d' :: r4 => some (JsonObj.cons (String.mk k.data) v3 JsonObj.nil, r4)
              | _ => none
            | none => none) = some (JsonObj.cons k v (JsonObj.cons k2 v2 tl2), rest)
          rw [ihP v _ hfv (by rw [notDigitHead_cons]; decide)]
          change (match parseFields fuel
              (objChars (JsonObj.cons k2 v2 tl2) ++ '\x7d' :: rest) with
            | some (fs, r5) => some (JsonObj.cons (String.mk k.data) v fs, r5)
            | none => none) = some (JsonObj.cons k v (JsonObj.cons k2 v2 tl2), rest)
          rw [ihR (JsonObj.cons k2 v2 tl2) rest (by simp) hftl]

theorem parseJson_jstringify (v : Json) : parseJson (jstringify v) = some v := by
  unfold parseJson jstringify
  have hdata : (String.mk (jesChars v)).data = jesChars v := rfl
  rw [hdata]
  have hfuel : jfuel v ≤ (jesChars v).length + 1 := by
    have := jfuel_le_len v
    omega
  have hP := (parse_jes_all ((jesChars v).length + 1)).1 v [] hfuel rfl
  rw [List.append_nil] at hP
  rw [hP]


theorem insertDesc_mem (r : HistoryRow) (l : List HistoryRow) (x : HistoryRow) :
    x ∈ insertDesc r l ↔ x = r ∨ x ∈ l := by
  induction l with
  | nil => simp [insertDesc]
  | cons y ys ih =>
    by_cases h : y.rid ≤ r.rid
    · simp [insertDesc, h]
    · simp [insertDesc, h, ih]
      tauto

theorem sortByIdDesc_mem (l : List HistoryRow) (x : HistoryRow) :
    x ∈ sortByIdDesc l ↔ x ∈ l := by
  induction l with
  | nil => simp [sortByIdDesc]
  | cons y ys ih => simp [sortByIdDesc, insertDesc_mem, ih]

theorem insertDesc_ne_nil (r : HistoryRow) (l : List HistoryRow) : insertDesc r l ≠ [] := by
  cases l with
  | nil => simp [insertDesc]
  | cons y ys =>
    by_cases h : y.rid ≤ r.rid <;> simp [insertDesc, h]

theorem sortByIdDesc_eq_nil (l : List HistoryRow) : sortByIdDesc l = [] ↔ l = [] := by
  cases l with
  | nil => simp [sortByIdDesc]
  | cons y ys => simp [sortByIdDesc, insertDesc_ne_nil]

theorem sortByIdDesc_head_max : ∀ (l : List HistoryRow) (r : HistoryRow) (rest : List HistoryRow),
    sortByIdDesc l = r :: rest → ∀ x ∈ l, x.rid ≤ r.rid := by
  intro l
  induction l with
  | nil => intro r rest h; simp [sortByIdDesc] at h
  | cons a as ih =>
    intro r rest h x hx
    rw [show sortByIdDesc (a :: as) = insertDesc a (sortByIdDesc as) from rfl] at h
    cases hsort : sortByIdDesc as with
    | nil =>
      rw [hsort] at h
      simp [insertDesc] at h
      have has : as = [] := (sortByIdDesc_eq_nil as).mp hsort
      subst has
      rcases h with ⟨rfl, -⟩
      have hxa : x = a := by simpa using hx
      rw [hxa]
    | cons b bs =>
      rw [hsort] at h
      by_cases hba : b.rid ≤ a.rid
      · rw [show insertDesc a (b :: bs) = if b.rid ≤ a.rid then a :: b :: bs
            else b :: insertDesc a bs from rfl, if_pos hba] at h
        have hra : r = a := (List.cons.injEq _ _ _ _ ▸ h).1.symm
        subst hra
        rcases List.mem_cons.mp hx with rfl | hx2
        · exact Nat.le_refl _
        · exact Nat.le_trans (ih b bs hsort x hx2) hba
      · rw [show insertDesc a (b :: bs) = if b.rid ≤ a.rid then a :: b :: bs
            else b :: insertDesc a bs from rfl, if_neg hba] at h
        have hrb : r = b := (List.cons.injEq _ _ _ _ ▸ h).1.symm
        subst hrb
        rcases List.mem_cons.mp hx with rfl | hx2
        · omega
        · exact ih r bs hsort x hx2

theorem sortByIdDesc_head_strict (l : List HistoryRow) (x : HistoryRow)
    (hx : x ∈ l) (hstrict : ∀ y ∈ l, y = x ∨ y.rid < x.rid) :
    ∃ rest, sortByIdDesc l = x :: rest := by
  cases hsort : sortByIdDesc l with
  | nil =>
    have : l = [] := (sortByIdDesc_eq_nil l).mp hsort
    subst this
    simp at hx
  | cons r rest =>
    have hr : r ∈ l := (sortByIdDesc_mem l r).mp (by rw [hsort]; simp)
    have hmax := sortByIdDesc_head_max l r rest hsort x hx
    rcases hstrict r hr with rfl | hlt
    · exact ⟨rest, rfl⟩
    · omega

theorem maxIdRow_eq_none (l : List HistoryRow) : maxIdRow l = none ↔ l = [] := by
  cases l with
  | nil => simp [maxIdRow]
  | cons r rs =>
    simp only [maxIdRow]
    cases maxIdRow rs with
    | none => simp
    | some m =>
      by_cases h : m.rid ≤ r.rid <;> simp [h]

theorem maxIdRow_spec : ∀ (l : List HistoryRow) (m : HistoryRow),
    maxIdRow l = some m → m ∈ l ∧ ∀ x ∈ l, x.rid ≤ m.rid := by
  intro l
  induction l with
  | nil => intro m h; simp [maxIdRow] at h
  | cons r rs ih =>
    intro m h
    rw [show maxIdRow (r :: rs) = (match maxIdRow rs with
      | none => some r
      | some m0 => if m0.rid ≤ r.rid then some r else some m0) from rfl] at h
    cases hm : maxIdRow rs with
    | none =>
      rw [hm] at h
      have hrs : rs = [] := (maxIdRow_eq_none rs).mp hm
      subst hrs
      simp at h
      subst h
      constructor
      · simp
      · intro x hx
        rcases List.mem_singleton.mp hx with rfl
        exact Nat.le_refl _
    | some m0 =>
      rw [hm] at h
      obtain ⟨hmem0, hmax0⟩ := ih m0 hm
      have h2 : (if m0.rid ≤ r.rid then some r else some m0) = some m := h
      by_cases hle : m0.rid ≤ r.rid
      · rw [if_pos hle] at h2
        obtain rfl : m = r := by simpa using h2.symm
        refine ⟨by simp, ?_⟩
        intro x hx
        rcases List.mem_cons.mp hx with rfl | hx2
        · exact Nat.le_refl _
        · exact Nat.le_trans (hmax0 x hx2) hle
      · rw [if_neg hle] at h2
        obtain rfl : m = m0 := by simpa using h2.symm
        refine ⟨by simp [hmem0], ?_⟩
        intro x hx
        rcases List.mem_cons.mp hx with rfl | hx2
        · omega
        · exact hmax0 x hx2


/-- C4: `getPrevByNumber` returns (with `options` parsed) exactly the
record with the greatest surrogate id among the rows of the requested
conversation — descending-id order, first row — and a none-like result
when no rows exist for that identifier. -/
theorem getPrevByNumber_latest (phone : String) (db : HistoryDB)
    (hnodup : (db.rows.map (fun r => r.rid)).Nodup) :
    ((db.rows.filter (fun r => r.phone == phone)) = [] →
      getPrevByNumber phone db = Except.ok none) ∧
    (∀ m, maxIdRow (db.rows.filter (fun r => r.phone == phone)) = some m →
      getPrevByNumber phone db =
        (match parseJson m.options with
         | some v => Except.ok (some { row := m, optionsVal := v })
         | none => Except.error ())) := by
  constructor
  · intro hfil
    unfold getPrevByNumber
    rw [hfil]
    rfl
  · intro m hm
    obtain ⟨hmem, hmax⟩ := maxIdRow_spec _ m hm
    cases hsort : sortByIdDesc (db.rows.filter (fun r => r.phone == phone)) with
    | nil =>
      have hems : db.rows.filter (fun r => r.phone == phone) = [] :=
        (sortByIdDesc_eq_nil _).mp hsort
      rw [hems] at hmem
      simp at hmem
    | cons r rest =>
      have hrmem : r ∈ db.rows.filter (fun r => r.phone == phone) :=
        (sortByIdDesc_mem _ r).mp (by rw [hsort]; simp)
      have hr1 : m.rid ≤ r.rid := sortByIdDesc_head_max _ r rest hsort m hmem
      have hr2 : r.rid ≤ m.rid := hmax r hrmem
      have hnodup2 : ((db.rows.filter (fun r => r.phone == phone)).map
          (fun r => r.rid)).Nodup :=
        List.Nodup.sublist (List.Sublist.map _ (List.filter_sublist _)) hnodup
      have hrm : r = m := List.inj_on_of_nodup_map hnodup2 hrmem hmem (by omega)
      subst hrm
      unfold getPrevByNumber
      rw [hsort]

/-- Witness for C4 on a concrete two-row table. -/
theorem getPrevByNumber_latest_witness :
    getPrevByNumber "7" (HistoryDB.mk
        [HistoryRow.mk 1 "r1" "k1" "a1" "s1" "7" "null",
         HistoryRow.mk 2 "r2" "k2" "a2" "s2" "7" "true"] 3) =
      Except.ok (some (ParsedRow.mk (HistoryRow.mk 2 "r2" "k2" "a2" "s2" "7" "true")
        (Json.jbool true))) := by
  have h := (getPrevByNumber_latest "7" (HistoryDB.mk
      [HistoryRow.mk 1 "r1" "k1" "a1" "s1" "7" "null",
       HistoryRow.mk 2 "r2" "k2" "a2" "s2" "7" "true"] 3) (by decide)).2
    (HistoryRow.mk 2 "r2" "k2" "a2" "s2" "7" "true") (by decide)
  rw [h]
  rfl

/-- C5: an `append` (`save`) for a conversation followed by `latestFor`
(`getPrevByNumber`) on the same conversation, with no interleaving write,
returns exactly the appended record, the `options` field round-tripping
through `JSON.stringify`/`JSON.parse` to a structurally equal value. -/
theorem save_then_getPrev (ctx : SaveCtx) (db : HistoryDB) (hwf : dbWF db) :
    getPrevByNumber ctx.fromNumber (save ctx db) =
      Except.ok (some (ParsedRow.mk
        (HistoryRow.mk db.nextId ctx.ref ctx.keyword ctx.answer ctx.refSerialize
          ctx.fromNumber (jstringify ctx.options))
        ctx.options)) := by
  set n : HistoryRow := HistoryRow.mk db.nextId ctx.ref ctx.keyword ctx.answer
    ctx.refSerialize ctx.fromNumber (jstringify ctx.options) with hn
  have hrows : (save ctx db).rows = db.rows ++ [n] := rfl
  have hfil : (save ctx db).rows.filter (fun r => r.phone == ctx.fromNumber) =
      db.rows.filter (fun r => r.phone == ctx.fromNumber) ++ [n] := by
    rw [hrows, List.filter_append]
    simp [hn]
  have hmem : n ∈ (save ctx db).rows.filter (fun r => r.phone == ctx.fromNumber) := by
    rw [hfil]; simp
  have hstrict : ∀ y ∈ (save ctx db).rows.filter (fun r => r.phone == ctx.fromNumber),
      y = n ∨ y.rid < n.rid := by
    intro y hy
    rw [hfil] at hy
    rcases List.mem_append.mp hy with hy1 | hy2
    · right
      have hy3 : y ∈ db.rows := List.mem_of_mem_filter hy1
      have := hwf y hy3
      simp [hn]
      omega
    · left
      simpa using hy2
  obtain ⟨rest, hsort⟩ := sortByIdDesc_head_strict _ n hmem hstrict
  unfold getPrevByNumber
  rw [hsort]
  show (match parseJson n.options with
    | some v => Except.ok (some (ParsedRow.mk n v))
    | none => Except.error ()) = Except.ok (some (ParsedRow.mk n ctx.options))
  rw [show n.options = jstringify ctx.options from rfl, parseJson_jstringify]

/-- Witness for C5 on a concrete record and an empty table. -/
theorem save_then_getPrev_witness :
    getPrevByNumber "55" (save (SaveCtx.mk "rf" "kw" "ans" "rs" "55"
        (Json.jobj (JsonObj.cons "a" (Json.jnum (-3)) JsonObj.nil))) (HistoryDB.mk [] 1)) =
      Except.ok (some (ParsedRow.mk
        (HistoryRow.mk 1 "rf" "kw" "ans" "rs" "55"
          (jstringify (Json.jobj (JsonObj.cons "a" (Json.jnum (-3)) JsonObj.nil))))
        (Json.jobj (JsonObj.cons "a" (Json.jnum (-3)) JsonObj.nil)))) :=
  save_then_getPrev (SaveCtx.mk "rf" "kw" "ans" "rs" "55"
    (Json.jobj (JsonObj.cons "a" (Json.jnum (-3)) JsonObj.nil))) (HistoryDB.mk [] 1)
    (by intro r hr; simp at hr)


/-- C6: every store operation that acquires a pool connection releases it
on every exit path — acquisition failure, body failure, or success — so
the number of checked-out connections is unchanged by every completed
call of `getPrevByNumber`, `save`, `createTable` and `checkTableExists`. -/
theorem connections_balanced :
    (∀ a q p : Bool, balanced (getPrevByNumber_connEvents a q p) = true) ∧
    (∀ a e : Bool, balanced (save_connEvents a e) = true) ∧
    (∀ a q : Bool, balanced (createTable_connEvents a q) = true) ∧
    (∀ a s t ca cq : Bool, balanced (checkTableExists_connEvents a s t ca cq) = true) := by
  refine ⟨?_, ?_, ?_, ?_⟩ <;> decide

/-- C1 counterexample: a valid execution trace of the adapter in which a
`save` starts (and can run against the store) before the schema bootstrap
has finished — the constructor calls `this.init().then()` without awaiting
it, and `save` is not gated on it. -/
theorem save_before_init_end :
    validTrace [Ev.initStart, Ev.ctorDone, Ev.saveStart 0, Ev.initEnd] = true ∧
    schemaBeforeSaves [Ev.initStart, Ev.ctorDone, Ev.saveStart 0, Ev.initEnd] = false := by
  decide

/-- C1 (amended): in every valid execution of the adapter the schema
bootstrap has started before any `save` starts; its completion, however,
is not awaited before `save` is accepted. -/
theorem bootstrap_started_before_saves (t : List Ev) (h : validTrace t = true) :
    bootstrapStartedBeforeSaves t = true := by
  cases t with
  | nil => rfl
  | cons x rest =>
    cases x with
    | initStart => simp [bootstrapStartedBeforeSaves, savesAfter]
    | initEnd => simp_all [validTrace, occursBefore]
    | ctorDone => simp_all [validTrace, occursBefore]
    | saveStart n => simp_all [validTrace, savesAfter, isSaveStart, occursBefore]

/-- Witness for the amended C1 on a concrete valid trace. -/
theorem bootstrap_started_before_saves_witness :
    validTrace [Ev.initStart, Ev.ctorDone, Ev.saveStart 3, Ev.initEnd] = true ∧
    bootstrapStartedBeforeSaves [Ev.initStart, Ev.ctorDone, Ev.saveStart 3, Ev.initEnd] = true :=
  ⟨by decide, bootstrap_started_before_saves _ (by decide)⟩

/-- C3: a probe-acquisition failure observed by `checkConnection` performs
exactly one pool recreation cycle: the old pool is ended, exactly one
fresh pool is constructed from the same stored credentials, and the schema
bootstrap re-runs, leaving it satisfied when the table check succeeds
against the new pool. -/
theorem probe_failure_recreates_once (st : Adapter) (hfresh : st.pool.pid < st.nextPid) :
    ((checkConnection st false true true).2.filter (fun e => isPoolCreated e)).length = 1 ∧
    AEvent.poolEnded st.pool.pid ∈ (checkConnection st false true true).2 ∧
    (checkConnection st false true true).1.pool.creds = st.credentials ∧
    (checkConnection st false true true).1.pool.pid ≠ st.pool.pid ∧
    AEvent.initRan true ∈ (checkConnection st false true true).2 ∧
    (checkConnection st false true true).1.schemaOk = true := by
  refine ⟨?_, ?_, ?_, ?_, ?_, ?_⟩ <;>
    simp [checkConnection, recreatePool, init, isPoolCreated] <;> omega

/-- Witness for C3 on a concrete adapter state. -/
theorem probe_failure_recreates_once_witness :
    ((checkConnection (Adapter.mk (Pool.mk 0 (Credentials.mk "h" "u" "d" "pw" 3306)
        PoolStatus.opened) (Credentials.mk "h" "u" "d" "pw" 3306) false 1)
        false true true).2.filter (fun e => isPoolCreated e)).length = 1 ∧
    AEvent.poolEnded 0 ∈ (checkConnection (Adapter.mk (Pool.mk 0
        (Credentials.mk "h" "u" "d" "pw" 3306) PoolStatus.opened)
        (Credentials.mk "h" "u" "d" "pw" 3306) false 1) false true true).2 ∧
    (checkConnection (Adapter.mk (Pool.mk 0 (Credentials.mk "h" "u" "d" "pw" 3306)
        PoolStatus.opened) (Credentials.mk "h" "u" "d" "pw" 3306) false 1)
        false true true).1.pool.creds = Credentials.mk "h" "u" "d" "pw" 3306 ∧
    (checkConnection (Adapter.mk (Pool.mk 0 (Credentials.mk "h" "u" "d" "pw" 3306)
        PoolStatus.opened) (Credentials.mk "h" "u" "d" "pw" 3306) false 1)
        false true true).1.pool.pid ≠ 0 ∧
    AEvent.initRan true ∈ (checkConnection (Adapter.mk (Pool.mk 0
        (Credentials.mk "h" "u" "d" "pw" 3306) PoolStatus.opened)
        (Credentials.mk "h" "u" "d" "pw" 3306) false 1) false true true).2 ∧
    (checkConnection (Adapter.mk (Pool.mk 0 (Credentials.mk "h" "u" "d" "pw" 3306)
        PoolStatus.opened) (Credentials.mk "h" "u" "d" "pw" 3306) false 1)
        false true true).1.schemaOk = true :=
  probe_failure_recreates_once (Adapter.mk (Pool.mk 0 (Credentials.mk "h" "u" "d" "pw" 3306)
    PoolStatus.opened) (Credentials.mk "h" "u" "d" "pw" 3306) false 1) (by decide)

/-- C9: when `pool.end()` rejects inside `recreatePool`, no replacement
pool is constructed and the schema re-check does not run — the adapter
keeps its existing pool handle, only an error is logged — and recovery is
deferred: a healthy later probe does nothing, while a later failing probe
performs the recreation. -/
theorem recreate_end_failure (st : Adapter) (tableOk : Bool) :
    recreatePool st false tableOk = (st, [AEvent.errorLogged]) ∧
    (∀ e ∈ (recreatePool st false tableOk).2, isPoolCreated e = false ∧
      ∀ ok, e ≠ AEvent.initRan ok) ∧
    checkConnection (recreatePool st false tableOk).1 true true true =
      ((recreatePool st false tableOk).1, []) ∧
    ((checkConnection (recreatePool st false tableOk).1 false true true).2.filter
      (fun e => isPoolCreated e)).length = 1 := by
  refine ⟨?_, ?_, ?_, ?_⟩ <;>
    simp [recreatePool, checkConnection, init, isPoolCreated]

/-- Pool-state invariant: draining exactly when the referenced pool object
is closed. -/
theorem poolReachable_inv (s : PoolSys) (h : PoolReachable s) :
    (s.draining = true → s.curStatus = PoolStatus.closed) ∧
    (s.draining = false → s.curStatus = PoolStatus.opened) := by
  induction h with
  | start => simp
  | step h1 hstep ih =>
    cases hstep with
    | beginRecreate hd => simp
    | finishSwap newId hd => simp

/-- C2: in every reachable pool state, a consumer call resolves in one
step — never hangs: during the recreation window (old pool ending, swap
pending) it fails with the unavailable error, and whenever it yields a
connection, that connection comes from the currently installed, fully
open pool, never from a half-torn-down one. -/
theorem pool_swap_atomic (s : PoolSys) (h : PoolReachable s) :
    (getConnection s = CallResult.unavailable ∨
      getConnection s = CallResult.conn s.cur) ∧
    (s.draining = true → getConnection s = CallResult.unavailable) ∧
    (∀ p, getConnection s = CallResult.conn p →
      p = s.cur ∧ s.curStatus = PoolStatus.opened ∧ s.draining = false) := by
  have hinv := poolReachable_inv s h
  cases hs : s.curStatus with
  | opened =>
    refine ⟨Or.inr (by simp [getConnection, hs]), ?_, ?_⟩
    · intro hd
      have := hinv.1 hd
      rw [hs] at this
      exact absurd this (by simp)
    · intro p hp
      have hcur : getConnection s = CallResult.conn s.cur := by simp [getConnection, hs]
      rw [hcur] at hp
      have hpc : p = s.cur := by
        have := hp.symm
        simpa using this
      refine ⟨hpc, rfl, ?_⟩
      cases hdr : s.draining with
      | false => rfl
      | true =>
        have := hinv.1 hdr
        rw [hs] at this
        exact absurd this (by simp)
  | closed =>
    refine ⟨Or.inl (by simp [getConnection, hs]), fun _ => by simp [getConnection, hs], ?_⟩
    intro p hp
    rw [show getConnection s = CallResult.unavailable from by simp [getConnection, hs]] at hp
    exact absurd hp (by simp)

/-- Witness for C2 at the initial (constructor) pool state. -/
theorem pool_swap_atomic_witness :
    (getConnection (PoolSys.mk 0 PoolStatus.opened false) = CallResult.unavailable ∨
      getConnection (PoolSys.mk 0 PoolStatus.opened false) = CallResult.conn 0) ∧
    ((PoolSys.mk 0 PoolStatus.opened false).draining = true →
      getConnection (PoolSys.mk 0 PoolStatus.opened false) = CallResult.unavailable) ∧
    (∀ p, getConnection (PoolSys.mk 0 PoolStatus.opened false) = CallResult.conn p →
      p = 0 ∧ (PoolSys.mk 0 PoolStatus.opened false).curStatus = PoolStatus.opened ∧
        (PoolSys.mk 0 PoolStatus.opened false).draining = false) :=
  pool_swap_atomic (PoolSys.mk 0 PoolStatus.opened false) PoolReachable.start

/-- C7: at the name-capture step of `registerFlow`, the inbound reply
"Ada" sets state name := "Ada" and emits the capture prompt "What is your
age?"; the subsequent inbound reply "36" sets age := "36"; the final
action then emits exactly
"Ada, thanks for your information!: Your age: 36". -/
theorem registerFlow_scenario :
    deliverAt [] "Ada" registerFlowSteps =
      ([("name", "Ada")], ["What is your age?"], true) ∧
    stateGet "name" [("name", "Ada")] = some "Ada" ∧
    deliverAt [("name", "Ada")] "36" (registerFlowSteps.drop 1) =
      ([("age", "36"), ("name", "Ada")],
        ["Ada, thanks for your information!: Your age: 36"], false) ∧
    stateGet "age" [("age", "36"), ("name", "Ada")] = some "36" := by
  refine ⟨?_, ?_, ?_, ?_⟩ <;> rfl

/-- C8: for intent `add` or `remove`, the `/v1/blacklist` handler mutates
blacklist membership accordingly (add inserts the number, remove deletes
it) and responds 200, `application/json`, with body the JSON serialization
of the status/number/intent object. -/
theorem blacklistHandler_spec (number intent : String) (bl : List String)
    (h : intent = "add" ∨ intent = "remove") :
    (intent = "add" → (blacklistHandler number intent bl).1 = blacklistAdd number bl ∧
      number ∈ (blacklistHandler number intent bl).1) ∧
    (intent = "remove" → (blacklistHandler number intent bl).1 = blacklistRemove number bl ∧
      number ∉ (blacklistHandler number intent bl).1) ∧
    (blacklistHandler number intent bl).2.status = 200 ∧
    (blacklistHandler number intent bl).2.contentType = "application/json" ∧
    (blacklistHandler number intent bl).2.body =
      jstringify (Json.jobj (JsonObj.cons "status" (Json.jstr "ok")
        (JsonObj.cons "number" (Json.jstr number)
          (JsonObj.cons "intent" (Json.jstr intent) JsonObj.nil)))) := by
  rcases h with rfl | rfl
  · refine ⟨?_, ?_, ?_, ?_, ?_⟩
    · intro _
      constructor
      · simp [blacklistHandler]
      · by_cases hmem : number ∈ bl <;>
          simp [blacklistHandler, blacklistAdd, hmem]
    · intro hcontra
      exact absurd hcontra (by decide)
    · rfl
    · rfl
    · rfl
  · refine ⟨?_, ?_, ?_, ?_, ?_⟩
    · intro hcontra
      exact absurd hcontra (by decide)
    · intro _
      constructor
      · simp [blacklistHandler]
      · simp [blacklistHandler, blacklistRemove]
    · rfl
    · rfl
    · rfl

/-- Witness for C8 with intent `add` on an empty blacklist. -/
theorem blacklistHandler_spec_witness :
    ("add" = "add" → (blacklistHandler "123" "add" []).1 = blacklistAdd "123" [] ∧
      "123" ∈ (blacklistHandler "123" "add" []).1) ∧
    ("add" = "remove" → (blacklistHandler "123" "add" []).1 = blacklistRemove "123" [] ∧
      "123" ∉ (blacklistHandler "123" "add" []).1) ∧
    (blacklistHandler "123" "add" []).2.status = 200 ∧
    (blacklistHandler "123" "add" []).2.contentType = "application/json" ∧
    (blacklistHandler "123" "add" []).2.body =
      jstringify (Json.jobj (JsonObj.cons "status" (Json.jstr "ok")
        (JsonObj.cons "number" (Json.jstr "123")
          (JsonObj.cons "intent" (Json.jstr "add") JsonObj.nil)))) :=
  blacklistHandler_spec "123" "add" [] (Or.inl rfl)

/-- C10: an intent that is neither `add` nor `remove` leaves the blacklist
completely unchanged, yet the handler still responds 200 with the JSON
body echoing the unrecognized intent — no error is reported. -/
theorem blacklistHandler_unknown_intent (number intent : String) (bl : List String)
    (h1 : intent ≠ "add") (h2 : intent ≠ "remove") :
    (blacklistHandler number intent bl).1 = bl ∧
    (blacklistHandler number intent bl).2.status = 200 ∧
    (blacklistHandler number intent bl).2.contentType = "application/json" ∧
    (blacklistHandler number intent bl).2.body =
      jstringify (Json.jobj (JsonObj.cons "status" (Json.jstr "ok")
        (JsonObj.cons "number" (Json.jstr number)
          (JsonObj.cons "intent" (Json.jstr intent) JsonObj.nil)))) := by
  refine ⟨?_, rfl, rfl, rfl⟩
  simp [blacklistHandler, h1, h2]

/-- Witness for C10 with an unrecognized intent on a nonempty blacklist. -/
theorem blacklistHandler_unknown_intent_witness :
    (blacklistHandler "123" "noop" ["123"]).1 = ["123"] ∧
    (blacklistHandler "123" "noop" ["123"]).2.status = 200 ∧
    (blacklistHandler "123" "noop" ["123"]).2.contentType = "application/json" ∧
    (blacklistHandler "123" "noop" ["123"]).2.body =
      jstringify (Json.jobj (JsonObj.cons "status" (Json.jstr "ok")
        (JsonObj.cons "number" (Json.jstr "123")
          (JsonObj.cons "intent" (Json.jstr "noop") JsonObj.nil)))) :=
  blacklistHandler_unknown_intent "123" "noop" ["123"] (by decide) (by decide)

end BB
